import Mathlib

/-!
Verification development for the HelloFreshScrape repository.

The Python sources (`scraper.py`, `utils.py`, `recipe_selectors.py`) are
shallowly embedded below.  Python values flowing through the scraper
(results of `json.loads`, values stored in `scraped_data`) are modelled by
the universal type `Json`; Python `None` is `Json.null`.  Machine integers
are `Int`/`Nat`; the floating point magnitudes produced by `float(...)` are
modelled as exact rationals (every value exercised here is exactly
representable).  Calls into external libraries (`requests`, BeautifulSoup's
`select_one`/`select`, the `re` module's one big ingredient regex) are
modelled as explicit function parameters or as faithful re-implementations
on `List Char`, as noted at each definition.  Fallible code returns
`Except`: `.error` marks an uncaught Python exception.
-/

namespace HelloFresh

/-- Decidable equality for `Except`, used to evaluate the embedded
functions on concrete inputs. -/
instance {ε α : Type _} [DecidableEq ε] [DecidableEq α] :
    DecidableEq (Except ε α)
  | .error e, .error f =>
    if h : e = f then .isTrue (by rw [h])
    else .isFalse (fun hc => h (Except.error.inj hc))
  | .error _, .ok _ => .isFalse (fun hc => Except.noConfusion hc)
  | .ok _, .error _ => .isFalse (fun hc => Except.noConfusion hc)
  | .ok a, .ok b =>
    if h : a = b then .isTrue (by rw [h])
    else .isFalse (fun hc => h (Except.ok.inj hc))

/-- Python values manipulated by the scraper: the result of parsing the
embedded JSON-LD block and everything derived from it.  `null` doubles as
Python `None`.  Numbers carry `Int` (the JSON-LD payloads the scraper
consumes hold integers; the float magnitudes produced by the nutrition
parser are represented separately as `ℚ`). -/
inductive Json where
  | null : Json
  | bool : Bool → Json
  | num : Int → Json
  | str : String → Json
  | arr : List Json → Json
  | obj : List (String × Json) → Json

/-- Python's `is not None` test, used by `get_value` on the raw value the
embedded-data lookup produced. -/
def Json.isNull : Json → Bool
  | .null => true
  | _ => false

/-- Python truthiness (`if x:`) for the values of `Json`:
`None`, `False`, `0`, `""`, `[]` and `{}` are falsy. -/
def Json.truthy : Json → Bool
  | .null => false
  | .bool b => b
  | .num n => n ≠ 0
  | .str s => s ≠ ""
  | .arr l => !l.isEmpty
  | .obj l => !l.isEmpty

/-- Python dict lookup `d.get(k)` on an object's field list (JSON objects
have unique keys, so first-match association lookup coincides with the
dict). -/
def lookupField (k : String) : List (String × Json) → Option Json
  | [] => none
  | (k', v) :: rest => if k' = k then some v else lookupField k rest

/-- One segment of a `json_ld_path` from `recipe_selectors.SELECTORS`: a
string key or an integer index (Python `int`, so possibly negative). -/
inductive Seg where
  | key : String → Seg
  | idx : Int → Seg
deriving DecidableEq, Repr

/-- The walk of `extract_from_json_ld` (scraper.py lines 46-53): for each
path segment, a dict is entered via `key in current_data`, a list via
`isinstance(key, int) and key < len(current_data)` followed by Python
indexing `current_data[key]`.  Python indexing accepts negative indices
down to `-len`; the guard `key < len` does not rule out smaller negative
indices, for which `current_data[key]` raises `IndexError`, modelled as
`.error ()`.  Any other mismatch returns `None` (`Json.null`). -/
def jsonWalk : Json → List Seg → Except Unit Json
  | cur, [] => .ok cur
  | cur, seg :: rest =>
    match cur, seg with
    | .obj fields, .key s =>
      match lookupField s fields with
      | some v => jsonWalk v rest
      | none => .ok .null
    | .arr elems, .idx i =>
      if i < (elems.length : Int) then
        if 0 ≤ i then
          jsonWalk ((elems.drop i.toNat).headD .null) rest
        else if 0 ≤ (elems.length : Int) + i then
          jsonWalk ((elems.drop ((elems.length : Int) + i).toNat).headD .null) rest
        else .error ()
      else .ok .null
    | _, _ => .ok .null

/-- `extract_from_json_ld` (scraper.py lines 44-53).  The leading guard
`if not json_ld_data or not path: return None` tests Python truthiness of
the data and emptiness of the path. -/
def extract_from_json_ld (data : Json) (path : List Seg) : Except Unit Json :=
  if !data.truthy || path.isEmpty then .ok .null
  else jsonWalk data path

/-- A path segment that cannot trigger Python's negative indexing:
string keys, or integer indices that are nonnegative. -/
def Seg.nonneg : Seg → Bool
  | .key _ => true
  | .idx i => 0 ≤ i

/-- Total companion of `jsonWalk`, following the spec's words ("each path
segment must match a mapping key or, for integer segments, a sequence
index; any mismatch at any segment yields absent for that source"):
every mismatch yields `null`, nothing raises. -/
def jsonResolve : Json → List Seg → Json
  | cur, [] => cur
  | cur, seg :: rest =>
    match cur, seg with
    | .obj fields, .key s =>
      match lookupField s fields with
      | some v => jsonResolve v rest
      | none => .null
    | .arr elems, .idx i =>
      if 0 ≤ i ∧ i < (elems.length : Int) then
        jsonResolve ((elems.drop i.toNat).headD .null) rest
      else .null
    | _, _ => .null

/-- Total companion of `extract_from_json_ld` (spec reading). -/
def pathResolve (data : Json) (path : List Seg) : Json :=
  if !data.truthy || path.isEmpty then .null
  else jsonResolve data path

theorem jsonWalk_nonneg_eq (cur : Json) (path : List Seg)
    (h : ∀ s ∈ path, s.nonneg = true) :
    jsonWalk cur path = .ok (jsonResolve cur path) := by
  induction path generalizing cur with
  | nil => rfl
  | cons seg rest ih =>
    have hseg : seg.nonneg = true := h seg (List.mem_cons_self _ _)
    have hrest : ∀ s ∈ rest, s.nonneg = true := fun s hs => h s (List.mem_cons_of_mem _ hs)
    cases cur with
    | obj fields =>
      cases seg with
      | key s =>
        simp only [jsonWalk, jsonResolve]
        cases lookupField s fields with
        | some v => exact ih v hrest
        | none => rfl
      | idx i => rfl
    | arr elems =>
      cases seg with
      | key s => rfl
      | idx i =>
        simp only [Seg.nonneg, decide_eq_true_eq] at hseg
        simp only [jsonWalk, jsonResolve]
        by_cases hlt : i < (elems.length : Int)
        · simp only [hlt, if_true, hseg, and_true, true_and, if_true, if_pos hseg]
          exact ih _ hrest
        · simp [hlt]
    | null => cases seg <;> rfl
    | bool b => cases seg <;> rfl
    | num n => cases seg <;> rfl
    | str s => cases seg <;> rfl

/-! ### Text normalisation (`utils.clean_text`)

`clean_text` in `utils.py` feeds the text through BeautifulSoup and then
collapses whitespace with `' '.join(text.split())`.  The BeautifulSoup pass
strips HTML markup; on markup-free text (all the strings the claims below
exercise) it is the identity, and is modelled as such.  The whitespace
collapse is modelled exactly: split on runs of whitespace, drop empties,
re-join with single spaces. -/

/-- Split a char list at every char satisfying `p`, keeping empty pieces
(the shape `str.split` of Python's `re.split` on a one-char pattern). -/
def splitOnPred (p : Char → Bool) : List Char → List (List Char)
  | [] => [[]]
  | c :: cs =>
    match splitOnPred p cs with
    | [] => if p c then [[], []] else [[c]]
    | t :: ts => if p c then [] :: t :: ts else (c :: t) :: ts

/-- Python `text.split()`: split on whitespace runs, dropping empties. -/
def pySplitWs (l : List Char) : List (List Char) :=
  (splitOnPred Char.isWhitespace l).filter (fun t => !t.isEmpty)

/-- `' '.join(words)`. -/
def joinSpaces : List (List Char) → List Char
  | [] => []
  | [w] => w
  | w :: ws => w ++ ' ' :: joinSpaces ws

/-- `clean_text` on char lists: whitespace collapse (see section comment
for the treatment of the BeautifulSoup markup strip). -/
def cleanTextList (l : List Char) : List Char :=
  joinSpaces (pySplitWs l)

/-- `clean_text` on strings. -/
def pyCleanTextStr (s : String) : String :=
  ⟨cleanTextList s.data⟩

/-! ### Duration parsing (`utils.parse_duration_to_minutes`, lines 18-76)

The two regex searches the source performs, `re.search(r'(\d+)H', s)` and
friends, are modelled by a single left-to-right scan that finds the first
maximal digit run immediately followed by the given terminator character —
exactly the leftmost match of `(\d+)X`, since backtracking inside a digit
run can never expose the terminator earlier. -/

/-- `int` applied to one more digit of a left-to-right digit run:
the step of Python's `int(group)`. -/
def digitStep (a : Nat) (c : Char) : Nat := 10 * a + (c.toNat - 48)

/-- Accumulator `cur` is the value of the digit run currently being read
(`None` when not inside a run).  Finds the leftmost `(\d+)X` match for a
non-digit terminator `x` and returns its numeric group. -/
def searchNumBeforeAux (x : Char) (cur : Option Nat) : List Char → Option Nat
  | [] => none
  | c :: cs =>
    if c.isDigit then
      searchNumBeforeAux x (some (digitStep (cur.getD 0) c)) cs
    else
      match cur with
      | some v => if c = x then some v else searchNumBeforeAux x none cs
      | none => searchNumBeforeAux x none cs

/-- `re.search(r'(\d+)X', s)` for terminator `X`, returning the group as a
number (the source immediately applies `int` to the group). -/
def searchNumBefore (x : Char) (l : List Char) : Option Nat :=
  searchNumBeforeAux x none l

/-- Like `searchNumBeforeAux`, but the digit run must be followed by a
remainder accepted by `test` (used for `(\d+)\s*(?:hour|hr)s?` and the
bare `(\d+)`).  A run ending at the end of input is checked against
`test []`. -/
def searchNumTestAux (test : List Char → Bool) (cur : Option Nat) :
    List Char → Option Nat
  | [] =>
    match cur with
    | some v => if test [] then some v else none
    | none => none
  | c :: cs =>
    if c.isDigit then
      searchNumTestAux test (some (digitStep (cur.getD 0) c)) cs
    else
      match cur with
      | some v => if test (c :: cs) then some v else searchNumTestAux test none cs
      | none => searchNumTestAux test none cs

def searchNumTest (test : List Char → Bool) (l : List Char) : Option Nat :=
  searchNumTestAux test none l

/-- Remainder check for `(\d+)\s*(?:hour|hr)s?` (the optional plural `s?`
always matches and the group is unaffected by it). -/
def hourKw (l : List Char) : Bool :=
  let r := l.dropWhile Char.isWhitespace
  ("hour".data).isPrefixOf r || ("hr".data).isPrefixOf r

/-- Remainder check for `(\d+)\s*(?:minute|min)s?`. -/
def minKw (l : List Char) : Bool :=
  let r := l.dropWhile Char.isWhitespace
  ("minute".data).isPrefixOf r || ("min".data).isPrefixOf r

/-- The ISO-8601 branch of `parse_duration_to_minutes` (utils.py lines
39-50): sum hours×60 and minutes; a seconds component contributes a single
round-up minute only when hours and minutes total zero and it is ≥ 30;
finally `return total if total > 0 else (None if not (h or m or s) else 0)`
— note the branch returns `0` (not `None`) when some component matched but
the total is zero. -/
def ptParse (l : List Char) : Option Nat :=
  let h := searchNumBefore 'H' l
  let m := searchNumBefore 'M' l
  let s := searchNumBefore 'S' l
  let base := 60 * h.getD 0 + m.getD 0
  let total := if s.isSome ∧ base = 0 ∧ 30 ≤ s.getD 0 then base + 1 else base
  if 0 < total then some total
  else if h = none ∧ m = none ∧ s = none then none
  else some 0

/-- The total the free-text branch computes (utils.py lines 54-72): an
hour quantity and a minute quantity; when neither word phrase is found,
the first bare integer is taken as minutes. -/
def textTotal (l : List Char) : Nat :=
  let h := searchNumTest hourKw l
  let m := searchNumTest minKw l
  if h = none ∧ m = none then (searchNumTest (fun _ => true) l).getD 0
  else 60 * h.getD 0 + m.getD 0

/-- The free-text branch's result: `total if total > 0 else None`. -/
def textParse (l : List Char) : Option Nat :=
  if 0 < textTotal l then some (textTotal l) else none

/-- `parse_duration_to_minutes` (utils.py lines 18-76) on string input:
empty input is falsy and yields `None`; the text is cleaned; a cleaned
empty string yields `None`; a string starting with `"PT"` takes the
ISO-8601 branch (case-sensitive searches on the cleaned text), anything
else the lower-cased free-text branch. -/
def parse_duration_to_minutes (s : String) : Option Nat :=
  if s.data.isEmpty then none
  else if (cleanTextList s.data).isEmpty then none
  else if ("PT".data).isPrefixOf (cleanTextList s.data) then ptParse (cleanTextList s.data)
  else textParse ((cleanTextList s.data).map Char.toLower)

/-! ### Decimal digit strings

Used to state "for every valid machine-duration code `PThHmM`": `natDigits`
renders a natural number in decimal, so `ptCode h m` is the code string. -/

/-- The decimal digit character for `r` (`r < 10` in every use; larger
arguments clamp to `'9'` so the function stays total). -/
def digitChar : Nat → Char
  | 0 => '0' | 1 => '1' | 2 => '2' | 3 => '3' | 4 => '4'
  | 5 => '5' | 6 => '6' | 7 => '7' | 8 => '8' | _ => '9'

/-- Decimal digits of a positive number, least significant first. -/
def natDigitsRev : Nat → List Char
  | 0 => []
  | n + 1 => digitChar ((n + 1) % 10) :: natDigitsRev ((n + 1) / 10)
decreasing_by exact Nat.div_lt_self (Nat.succ_pos n) (by decide)

/-- Decimal rendering of a natural number (`str(n)` for `n ≥ 0`). -/
def natDigits (n : Nat) : List Char :=
  if n = 0 then ['0'] else (natDigitsRev n).reverse

/-- The machine-duration code `PThHmM` with decimal hour count `h` and
minute count `m`. -/
def ptCode (h m : Nat) : String :=
  ⟨'P' :: 'T' :: (natDigits h ++ 'H' :: (natDigits m ++ ['M']))⟩

theorem digitChar_isDigit (r : Nat) : (digitChar r).isDigit = true := by
  unfold digitChar; split <;> decide

theorem digitChar_not_ws (r : Nat) : (digitChar r).isWhitespace = false := by
  unfold digitChar; split <;> decide

theorem digitChar_val (r : Nat) (h : r < 10) : (digitChar r).toNat - 48 = r := by
  interval_cases r <;> decide

theorem natDigitsRev_isDigit (n : Nat) : ∀ c ∈ natDigitsRev n, c.isDigit = true := by
  induction n using Nat.strong_induction_on with
  | _ n ih =>
    match n with
    | 0 => intro c hc; simp [natDigitsRev] at hc
    | k + 1 =>
      intro c hc
      rw [natDigitsRev] at hc
      rcases List.mem_cons.mp hc with h | h
      · subst h; exact digitChar_isDigit _
      · exact ih ((k + 1) / 10) (Nat.div_lt_self (Nat.succ_pos k) (by decide)) c h

theorem natDigitsRev_not_ws (n : Nat) : ∀ c ∈ natDigitsRev n, c.isWhitespace = false := by
  induction n using Nat.strong_induction_on with
  | _ n ih =>
    match n with
    | 0 => intro c hc; simp [natDigitsRev] at hc
    | k + 1 =>
      intro c hc
      rw [natDigitsRev] at hc
      rcases List.mem_cons.mp hc with h | h
      · subst h; exact digitChar_not_ws _
      · exact ih ((k + 1) / 10) (Nat.div_lt_self (Nat.succ_pos k) (by decide)) c h

theorem natDigits_isDigit (n : Nat) : ∀ c ∈ natDigits n, c.isDigit = true := by
  intro c hc
  unfold natDigits at hc
  split at hc
  · simp at hc; subst hc; decide
  · exact natDigitsRev_isDigit n c (List.mem_reverse.mp hc)

theorem natDigits_not_ws (n : Nat) : ∀ c ∈ natDigits n, c.isWhitespace = false := by
  intro c hc
  unfold natDigits at hc
  split at hc
  · simp at hc; subst hc; decide
  · exact natDigitsRev_not_ws n c (List.mem_reverse.mp hc)

theorem natDigits_ne_nil (n : Nat) : natDigits n ≠ [] := by
  unfold natDigits
  split
  · simp
  · rename_i h
    match n, h with
    | k + 1, _ => rw [natDigitsRev]; simp

theorem natDigitsRev_foldr (n : Nat) :
    (natDigitsRev n).foldr (fun c a => digitStep a c) 0 = n := by
  induction n using Nat.strong_induction_on with
  | _ n ih =>
    match n with
    | 0 => simp [natDigitsRev]
    | k + 1 =>
      rw [natDigitsRev]
      simp only [List.foldr_cons]
      rw [ih ((k + 1) / 10) (Nat.div_lt_self (Nat.succ_pos k) (by decide))]
      unfold digitStep
      rw [digitChar_val _ (Nat.mod_lt _ (by decide))]
      omega

theorem natDigits_foldl (n : Nat) : (natDigits n).foldl digitStep 0 = n := by
  unfold natDigits
  split
  · subst n; decide
  · rw [List.foldl_reverse]
    exact natDigitsRev_foldr n

/-! ### Behaviour of the `(\d+)X` search on digit runs -/

theorem searchNumBeforeAux_skip (x c : Char) (cs : List Char)
    (h : c.isDigit = false) :
    searchNumBeforeAux x none (c :: cs) = searchNumBeforeAux x none cs := by
  simp [searchNumBeforeAux, h]

theorem searchNumBeforeAux_cons_digit (x c : Char) (cur : Option Nat) (cs : List Char)
    (h : c.isDigit = true) :
    searchNumBeforeAux x cur (c :: cs) =
      searchNumBeforeAux x (some (digitStep (cur.getD 0) c)) cs := by
  simp [searchNumBeforeAux, h]

theorem searchNumBeforeAux_digits (x : Char) (D : List Char) :
    ∀ (cur : Option Nat) (rest : List Char), D ≠ [] → (∀ c ∈ D, c.isDigit = true) →
    searchNumBeforeAux x cur (D ++ rest) =
      searchNumBeforeAux x (some (D.foldl digitStep (cur.getD 0))) rest := by
  induction D with
  | nil => intro _ _ h; exact absurd rfl h
  | cons d D ih =>
    intro cur rest _ hdig
    have hd : d.isDigit = true := hdig d (List.mem_cons_self _ _)
    rw [List.cons_append, searchNumBeforeAux_cons_digit x d cur _ hd]
    cases D with
    | nil => simp
    | cons e E =>
      rw [ih (some (digitStep (cur.getD 0) d)) rest (by simp)
        (fun c hc => hdig c (List.mem_cons_of_mem _ hc))]
      simp

theorem searchNumBeforeAux_hit (x : Char) (v : Nat) (rest : List Char)
    (h : x.isDigit = false) :
    searchNumBeforeAux x (some v) (x :: rest) = some v := by
  simp [searchNumBeforeAux, h]

theorem searchNumBeforeAux_miss (x c : Char) (v : Nat) (rest : List Char)
    (hdig : c.isDigit = false) (hne : c ≠ x) :
    searchNumBeforeAux x (some v) (c :: rest) = searchNumBeforeAux x none rest := by
  simp [searchNumBeforeAux, hdig, hne]

/-! ### Whitespace-free text passes `clean_text` unchanged -/

theorem splitOnPred_of_none (p : Char → Bool) (l : List Char)
    (h : ∀ c ∈ l, p c = false) : splitOnPred p l = [l] := by
  induction l with
  | nil => rfl
  | cons c cs ih =>
    have hc : p c = false := h c (List.mem_cons_self _ _)
    rw [splitOnPred, ih (fun c hc => h c (List.mem_cons_of_mem _ hc))]
    simp [hc]

theorem cleanTextList_of_no_ws (l : List Char)
    (h : ∀ c ∈ l, c.isWhitespace = false) : cleanTextList l = l := by
  unfold cleanTextList pySplitWs
  rw [splitOnPred_of_none _ _ h]
  cases l with
  | nil => rfl
  | cons c cs => rfl

/-! ### `get_value` (scraper.py lines 140-171), the per-field resolver

Heterogeneous Python values are carried by `Json`.  The CSS-fallback phase
(lines 160-171) queries the BeautifulSoup tree, an external collaborator;
it is abstracted as the `cssPhase` parameter — claims C2 and C10 are
precisely that this phase is never consulted once the embedded lookup
produced a non-`None` value, which is proved as independence from
`cssPhase`. -/

/-- Python `str()` restricted to the scalar values the scraper stringifies
(`str`, `int`, `bool`, `None`).  The modelled code paths never stringify a
list or dict (the `isinstance(raw, (str, int, float))` guard excludes
them), so containers render as the empty string. -/
def pyStr : Json → String
  | .null => "None"
  | .bool b => if b then "True" else "False"
  | .num n => toString n
  | .str s => s
  | .arr _ => ""
  | .obj _ => ""

/-- The `isinstance(raw_json_value, (str, int, float))` guard of
scraper.py line 158 (`bool` is a subclass of `int` in Python). -/
def Json.isScalarForClean : Json → Bool
  | .str _ => true
  | .num _ => true
  | .bool _ => true
  | _ => false

/-- `utils.clean_text` as applied to an arbitrary Python value:
`clean_text(None)` is `None`, anything else is stringified and cleaned
(see `pyCleanTextStr` for the markup-strip caveat). -/
def pyCleanJson : Json → Json
  | .null => .null
  | v => .str (pyCleanTextStr (pyStr v))

/-- Lines 144-149 of `get_value`: `raw_json_value` starts as `None` and is
set from the embedded lookup only when `json_ld_data` is truthy and a
`json_ld_path` is configured. -/
def get_value_raw (jsonLdData : Json) (jsonLdPath : List Seg) : Except Unit Json :=
  if jsonLdData.truthy && !jsonLdPath.isEmpty then
    extract_from_json_ld jsonLdData jsonLdPath
  else .ok .null

/-- Lines 151-171 of `get_value`, given the raw embedded value: a
non-`None` value is consumed by the specific parser if one is configured,
else by the list branch (processor, or the
`[cleaning_func(item) if cleaning_func else item for item in raw if item]`
comprehension for lists and `[]` for any other shape), else by the scalar
branch; only a `None` raw value falls through to the CSS phase. -/
def get_value_resolved (raw : Json) (cleaning : Option (Json → Json))
    (isList : Bool) (jsonListProc : Option (Json → Json))
    (specificParser : Option (Json → Json))
    (cssPhase : Unit → Except Unit Json) : Except Unit Json :=
  if raw.isNull then cssPhase ()
  else
    match specificParser with
    | some p => .ok (p raw)
    | none =>
      if isList then
        match jsonListProc with
        | some proc => .ok (proc raw)
        | none =>
          match raw with
          | .arr items =>
            .ok (.arr ((items.filter Json.truthy).map
              (fun it => match cleaning with | some f => f it | none => it)))
          | _ => .ok (.arr [])
      else
        match cleaning with
        | some f => if raw.isScalarForClean then .ok (f (.str (pyStr raw))) else .ok raw
        | none => .ok raw

/-- The inner `get_value` closure of `scrape_recipe_data` (scraper.py
lines 140-171). -/
def get_value (jsonLdData : Json) (jsonLdPath : List Seg)
    (cleaning : Option (Json → Json)) (isList : Bool)
    (jsonListProc : Option (Json → Json)) (specificParser : Option (Json → Json))
    (cssPhase : Unit → Except Unit Json) : Except Unit Json :=
  match get_value_raw jsonLdData jsonLdPath with
  | .error e => .error e
  | .ok raw => get_value_resolved raw cleaning isList jsonListProc specificParser cssPhase

/-- The `step_item.get("@type") == "HowToStep"` comparison of
`process_json_steps` (scraper.py line 233). -/
def isHowToStepType : Option Json → Bool
  | some (.str s) => s = "HowToStep"
  | _ => false

/-- One iteration of the `process_json_steps` loop (scraper.py lines
232-236): a `HowToStep` dict contributes `clean_text(item.get("text"))`,
a bare string contributes its cleaned self, anything else is skipped. -/
def pyStepItem : Json → Option Json
  | .obj fields =>
    if isHowToStepType (lookupField "@type" fields) then
      some (pyCleanJson ((lookupField "text" fields).getD .null))
    else none
  | .str s => some (pyCleanJson (.str s))
  | _ => none

/-- `process_json_steps` (scraper.py lines 229-237): non-lists yield `[]`;
lists are mapped through `pyStepItem` and filtered by truthiness
(`[s for s in processed if s]`). -/
def process_json_steps : Json → Json
  | .arr items => .arr ((items.filterMap pyStepItem).filter Json.truthy)
  | _ => .arr []

/-! ### Claims C3 and C4: the duration parser -/

theorem ptCode_searches (h m : Nat) :
    searchNumBefore 'H' (ptCode h m).data = some h ∧
    searchNumBefore 'M' (ptCode h m).data = some m ∧
    searchNumBefore 'S' (ptCode h m).data = none := by
  have hDh := natDigits_isDigit h
  have hDm := natDigits_isDigit m
  have hDh0 := natDigits_ne_nil h
  have hDm0 := natDigits_ne_nil m
  have hfh := natDigits_foldl h
  have hfm := natDigits_foldl m
  refine ⟨?_, ?_, ?_⟩
  · show searchNumBeforeAux 'H' none
      ('P' :: 'T' :: (natDigits h ++ 'H' :: (natDigits m ++ ['M']))) = some h
    rw [searchNumBeforeAux_skip _ _ _ (by decide),
      searchNumBeforeAux_skip _ _ _ (by decide),
      searchNumBeforeAux_digits 'H' (natDigits h) none _ hDh0 hDh]
    simp only [Option.getD, hfh]
    exact searchNumBeforeAux_hit _ _ _ (by decide)
  · show searchNumBeforeAux 'M' none
      ('P' :: 'T' :: (natDigits h ++ 'H' :: (natDigits m ++ ['M']))) = some m
    rw [searchNumBeforeAux_skip _ _ _ (by decide),
      searchNumBeforeAux_skip _ _ _ (by decide),
      searchNumBeforeAux_digits 'M' (natDigits h) none _ hDh0 hDh,
      searchNumBeforeAux_miss _ _ _ _ (by decide) (by decide),
      searchNumBeforeAux_digits 'M' (natDigits m) none _ hDm0 hDm]
    simp only [Option.getD, hfm]
    exact searchNumBeforeAux_hit _ _ _ (by decide)
  · show searchNumBeforeAux 'S' none
      ('P' :: 'T' :: (natDigits h ++ 'H' :: (natDigits m ++ ['M']))) = none
    rw [searchNumBeforeAux_skip _ _ _ (by decide),
      searchNumBeforeAux_skip _ _ _ (by decide),
      searchNumBeforeAux_digits 'S' (natDigits h) none _ hDh0 hDh,
      searchNumBeforeAux_miss _ _ _ _ (by decide) (by decide),
      searchNumBeforeAux_digits 'S' (natDigits m) none _ hDm0 hDm,
      searchNumBeforeAux_miss _ _ _ _ (by decide) (by decide)]
    rfl

theorem ptCode_clean (h m : Nat) : cleanTextList (ptCode h m).data = (ptCode h m).data := by
  apply cleanTextList_of_no_ws
  intro c hc
  show c.isWhitespace = false
  simp only [ptCode, List.mem_cons, List.mem_append, List.not_mem_nil,
    or_false] at hc
  rcases hc with rfl | rfl | hc | rfl | hc | rfl
  · decide
  · decide
  · exact natDigits_not_ws h c hc
  · decide
  · exact natDigits_not_ws m c hc
  · decide

/-- C3: for every valid machine-duration code of the form `PThHmM` the
duration parser returns `60*h + m` minutes; `parseDuration("PT45M") = 45`,
`parseDuration("PT1H30M") = 90`, and `parseDuration("")` is absent. -/
theorem duration_pt_code_minutes :
    (∀ h m : Nat, parse_duration_to_minutes (ptCode h m) = some (60 * h + m)) ∧
    parse_duration_to_minutes "PT45M" = some 45 ∧
    parse_duration_to_minutes "PT1H30M" = some 90 ∧
    parse_duration_to_minutes "" = none := by
  refine ⟨?_, rfl, rfl, rfl⟩
  intro h m
  obtain ⟨hH, hM, hS⟩ := ptCode_searches h m
  have hempty : (ptCode h m).data.isEmpty = false := by simp [ptCode]
  have hpt : ("PT".data).isPrefixOf (ptCode h m).data = true := by
    show ("PT".data).isPrefixOf
      ('P' :: 'T' :: (natDigits h ++ 'H' :: (natDigits m ++ ['M']))) = true
    simp [List.isPrefixOf]
  unfold parse_duration_to_minutes
  rw [hempty, ptCode_clean h m, hempty, hpt]
  simp only [Bool.false_eq_true, if_false, if_true]
  unfold ptParse
  rw [hH, hM, hS]
  simp only [Option.isSome_none, Bool.false_eq_true, false_and, if_false, Option.getD]
  by_cases hb : 0 < 60 * h + m
  · simp [hb]
  · have h0 : 60 * h + m = 0 := by omega
    simp [h0]

/-- Counterexample to C4 as stated: a machine-duration code with a
recognised minute component totalling zero minutes makes the parser
return `0`, not absent — the claim says a zero total always yields
absence ("it never returns 0"). -/
theorem duration_zero_total_returns_zero :
    parse_duration_to_minutes "PT0M" = some 0 := rfl

theorem ptParse_eq_none_iff (l : List Char) :
    ptParse l = none ↔
      (searchNumBefore 'H' l = none ∧ searchNumBefore 'M' l = none ∧
        searchNumBefore 'S' l = none) := by
  unfold ptParse
  by_cases hH : searchNumBefore 'H' l = none <;>
    by_cases hM : searchNumBefore 'M' l = none <;>
    by_cases hS : searchNumBefore 'S' l = none
  all_goals simp [hH, hM, hS]
  all_goals (repeat' split)
  all_goals simp

theorem textParse_eq_none_iff (l : List Char) :
    textParse l = none ↔ textTotal l = 0 := by
  unfold textParse
  split
  · rename_i h; simp; omega
  · rename_i h; simp; omega

/-- C4 (amended): the duration parser returns absent exactly when the
input cleans to the empty string, or a machine-duration (`PT`) code has no
recognisable hour/minute/second component, or a free-text (non-`PT`) input
has a computed total of zero minutes.  A `PT` code with a recognised
component totalling zero returns `0`, not absent. -/
theorem duration_absent_characterization (s : String) :
    parse_duration_to_minutes s = none ↔
      (cleanTextList s.data = [] ∨
       (("PT".data).isPrefixOf (cleanTextList s.data) = true ∧
         searchNumBefore 'H' (cleanTextList s.data) = none ∧
         searchNumBefore 'M' (cleanTextList s.data) = none ∧
         searchNumBefore 'S' (cleanTextList s.data) = none) ∨
       (cleanTextList s.data ≠ [] ∧
         ("PT".data).isPrefixOf (cleanTextList s.data) = false ∧
         textTotal ((cleanTextList s.data).map Char.toLower) = 0)) := by
  unfold parse_duration_to_minutes
  by_cases h0 : s.data.isEmpty
  · have hnil : s.data = [] := List.isEmpty_iff.mp h0
    have hcl : cleanTextList s.data = [] := by rw [hnil]; rfl
    simp [h0, hcl]
  · simp only [h0, Bool.false_eq_true, if_false]
    by_cases h1 : (cleanTextList s.data).isEmpty
    · have hnil : cleanTextList s.data = [] := List.isEmpty_iff.mp h1
      simp [h1, hnil]
    · have hne : cleanTextList s.data ≠ [] := by
        intro hx; rw [hx] at h1; exact h1 rfl
      simp only [h1, Bool.false_eq_true, if_false]
      by_cases h2 : ("PT".data).isPrefixOf (cleanTextList s.data)
      · rw [if_pos h2, ptParse_eq_none_iff]
        simp [hne, h2]
      · have h2' : ("PT".data).isPrefixOf (cleanTextList s.data) = false :=
          Bool.not_eq_true _ |>.mp h2
        rw [if_neg h2, textParse_eq_none_iff]
        simp [hne, h2']

/-! ### Claim C5: totality of the embedded-path lookup -/

/-- Counterexample to C5 as stated: the lookup is quantified over *any*
integer index, but the bounds check `isinstance(key, int) and
key < len(current_data)` admits every negative index, and Python indexing
then raises `IndexError` for indices below `-len`: index `-2` into the
one-element sequence `[1]` aborts instead of yielding absent. -/
theorem extract_negative_index_raises :
    extract_from_json_ld (Json.arr [Json.num 1]) [Seg.idx (-2)] = .error () := rfl

/-- C5 (amended): for every embedded-data tree and every path all of whose
integer segments are nonnegative, the lookup is total and equals the
total resolver `pathResolve`, which yields absent (`null`) on any segment
mismatch; a negative index below `-len` of the sequence it meets instead
raises an uncaught `IndexError`. -/
theorem extract_total_on_nonneg_paths (data : Json) (path : List Seg)
    (h : ∀ s ∈ path, s.nonneg = true) :
    extract_from_json_ld data path = .ok (pathResolve data path) := by
  unfold extract_from_json_ld pathResolve
  split
  · rfl
  · exact jsonWalk_nonneg_eq data path h

theorem extract_total_on_nonneg_paths_witness :
    (∀ s ∈ [Seg.key "a", Seg.idx 0, Seg.key "z"], s.nonneg = true) ∧
    extract_from_json_ld (Json.obj [("a", Json.arr [Json.str "x"])])
      [Seg.key "a", Seg.idx 0, Seg.key "z"] = .ok Json.null := by
  refine ⟨by decide, ?_⟩
  rw [extract_total_on_nonneg_paths
    (Json.obj [("a", Json.arr [Json.str "x"])])
    [Seg.key "a", Seg.idx 0, Seg.key "z"] (by decide)]
  rfl

/-! ### Claim C2: embedded precedence in `get_value` -/

theorem get_value_raw_of_extract (d : Json) (p : List Seg) (v : Json)
    (hex : extract_from_json_ld d p = .ok v) (hnull : v.isNull = false) :
    get_value_raw d p = .ok v := by
  unfold get_value_raw
  by_cases hg : (d.truthy && !p.isEmpty) = true
  · rw [if_pos hg]; exact hex
  · exfalso
    have hguard : (!d.truthy || p.isEmpty) = true := by
      cases hd : d.truthy <;> cases hp : p.isEmpty <;> simp_all
    unfold extract_from_json_ld at hex
    rw [if_pos hguard] at hex
    cases hex
    simp [Json.isNull] at hnull

theorem get_value_resolved_css_indep (raw : Json) (cleaning : Option (Json → Json))
    (isList : Bool) (jlp sp : Option (Json → Json))
    (css css' : Unit → Except Unit Json) (hnull : raw.isNull = false) :
    get_value_resolved raw cleaning isList jlp sp css =
      get_value_resolved raw cleaning isList jlp sp css' := by
  unfold get_value_resolved
  simp [hnull]

/-- C2: whenever the embedded-data path resolves to a non-null value, the
result of `get_value` is independent of the entire CSS-fallback phase (so
no presentation fallback strategy is ever evaluated), and when a specific
sub-parser is configured the field's value is exactly the parser's output
— even when that output is `None`, resolution ends there. -/
theorem embedded_value_ends_resolution (d : Json) (p : List Seg) (v : Json)
    (cleaning : Option (Json → Json)) (isList : Bool)
    (jlp sp : Option (Json → Json)) (css css' : Unit → Except Unit Json)
    (hex : extract_from_json_ld d p = .ok v) (hnull : v.isNull = false) :
    (get_value d p cleaning isList jlp sp css =
      get_value d p cleaning isList jlp sp css') ∧
    (∀ f, sp = some f →
      get_value d p cleaning isList jlp sp css = .ok (f v)) := by
  have hraw := get_value_raw_of_extract d p v hex hnull
  constructor
  · unfold get_value
    rw [hraw]
    exact get_value_resolved_css_indep v cleaning isList jlp sp css css' hnull
  · intro f hf
    subst hf
    unfold get_value
    rw [hraw]
    unfold get_value_resolved
    simp [hnull]

theorem embedded_value_ends_resolution_witness :
    extract_from_json_ld (Json.obj [("prepTime", Json.str "PT5M")])
      [Seg.key "prepTime"] = .ok (Json.str "PT5M") ∧
    get_value (Json.obj [("prepTime", Json.str "PT5M")]) [Seg.key "prepTime"]
      none false none (some (fun _ => Json.null))
      (fun _ => .ok (Json.str "never consulted")) = .ok Json.null := by
  refine ⟨rfl, ?_⟩
  exact (embedded_value_ends_resolution
    (Json.obj [("prepTime", Json.str "PT5M")]) [Seg.key "prepTime"]
    (Json.str "PT5M") none false none (some (fun _ => Json.null))
    (fun _ => .ok (Json.str "never consulted"))
    (fun _ => .ok (Json.str "never consulted")) rfl rfl).2 _ rfl

/-! ### Claim C10: wrong-shaped embedded values for list fields -/

/-- C10: for the two list-typed fields, an embedded value that is non-null
but not a sequence resolves to the empty list without consulting the CSS
fallbacks: the ingredients call (`is_list=True`, no processor, no
cleaning) takes the comprehension's `else []` arm, and the steps call
(processor `process_json_steps`, default `clean_text` cleaning) returns
the processor's `[]` for non-lists; `cssPhase` is arbitrary in both. -/
theorem list_field_wrong_shape_empty (d : Json) (p : List Seg) (v : Json)
    (css : Unit → Except Unit Json)
    (hex : extract_from_json_ld d p = .ok v) (hnull : v.isNull = false)
    (harr : ∀ l, v ≠ Json.arr l) :
    get_value d p none true none none css = .ok (Json.arr []) ∧
    get_value d p (some pyCleanJson) true (some process_json_steps) none css =
      .ok (Json.arr []) := by
  have hraw := get_value_raw_of_extract d p v hex hnull
  constructor
  · unfold get_value
    rw [hraw]
    unfold get_value_resolved
    simp only [hnull, Bool.false_eq_true, if_false]
    cases v with
    | arr l => exact absurd rfl (harr l)
    | null => simp [Json.isNull] at hnull
    | bool b => rfl
    | num n => rfl
    | str s => rfl
    | obj f => rfl
  · unfold get_value
    rw [hraw]
    unfold get_value_resolved
    simp only [hnull, Bool.false_eq_true, if_false]
    cases v with
    | arr l => exact absurd rfl (harr l)
    | null => simp [Json.isNull] at hnull
    | bool b => rfl
    | num n => rfl
    | str s => rfl
    | obj f => rfl

theorem list_field_wrong_shape_empty_witness :
    extract_from_json_ld (Json.obj [("recipeInstructions", Json.str "Step one.")])
      [Seg.key "recipeInstructions"] = .ok (Json.str "Step one.") ∧
    get_value (Json.obj [("recipeInstructions", Json.str "Step one.")])
      [Seg.key "recipeInstructions"] none true none none
      (fun _ => .ok (Json.str "never consulted")) = .ok (Json.arr []) ∧
    get_value (Json.obj [("recipeInstructions", Json.str "Step one.")])
      [Seg.key "recipeInstructions"] (some pyCleanJson) true
      (some process_json_steps) none
      (fun _ => .ok (Json.str "never consulted")) = .ok (Json.arr []) := by
  have h := list_field_wrong_shape_empty
    (Json.obj [("recipeInstructions", Json.str "Step one.")])
    [Seg.key "recipeInstructions"] (Json.str "Step one.")
    (fun _ => .ok (Json.str "never consulted")) rfl rfl
    (fun l hl => Json.noConfusion hl)
  exact ⟨rfl, h.1, h.2⟩

/-! ### Presentation-fallback strategies (`extract_data_point`,
`extract_list_data`, scraper.py lines 55-84)

A strategy is one entry of a `css_selectors` list in
`recipe_selectors.SELECTORS`.  The BeautifulSoup queries
`soup.select_one` / `soup.select` are external collaborators and may raise
(e.g. on unsupported pseudo-selectors); they are passed in as oracle
functions returning `Except`, with `.error` standing for the exception the
`try`/`except` of the source catches. -/

structure Strategy where
  type : String
  selector : String
  attribute_name : Option String

/-- A rendered markup element as the strategies consume it: its attribute
mapping (`element.get(name)`) and its text (`element.get_text()`). -/
structure Element where
  attrs : List (String × String)
  text : String

def Element.getAttr (el : Element) (a : String) : Option String :=
  go el.attrs
where
  go : List (String × String) → Option String
    | [] => none
    | (k, v) :: rest => if k = a then some v else go rest

/-- Truthiness of `strategy.get('attribute_name')`. -/
def attrGiven : Option String → Bool
  | none => false
  | some a => a ≠ ""

/-- Python `str.strip()`. -/
def pyStripWs (s : String) : String :=
  ⟨((s.data.dropWhile Char.isWhitespace).reverse.dropWhile Char.isWhitespace).reverse⟩

/-- The `return` expression shared by both strategy types (scraper.py
lines 63 and 68): `cleaning_func(value) if value and cleaning_func else
(value.strip() if value else None)`. -/
def returnCleaned (cleaning : Option (String → Json)) (value : Option String) : Json :=
  match value with
  | some v =>
    if v ≠ "" then
      match cleaning with
      | some f => f v
      | none => .str (pyStripWs v)
    else .null
  | none => .null

/-- One iteration of the `extract_data_point` loop (scraper.py lines
57-71): a `'css'` strategy returns as soon as its query matches an
element (taking the attribute when one is configured, else the text); a
`'meta'` strategy returns only when both an element and an attribute name
are present; any other type falls through.  `.ok none` means "this
strategy found nothing, continue"; `.ok (some v)` means "return `v` from
the function"; `.error e` is an exception raised inside the `try`. -/
def evalStrategy (so : String → Except String (Option Element))
    (cleaning : Option (String → Json)) (s : Strategy) :
    Except String (Option Json) :=
  if s.type = "css" then
    match so s.selector with
    | .error e => .error e
    | .ok none => .ok none
    | .ok (some el) =>
      .ok (some (returnCleaned cleaning
        (if attrGiven s.attribute_name then el.getAttr (s.attribute_name.getD "")
         else some el.text)))
  else if s.type = "meta" then
    match so s.selector with
    | .error e => .error e
    | .ok none => .ok none
    | .ok (some el) =>
      if attrGiven s.attribute_name then
        .ok (some (returnCleaned cleaning (el.getAttr (s.attribute_name.getD ""))))
      else .ok none
  else .ok none

/-- `extract_data_point` (scraper.py lines 55-72): try the strategies in
declared order; an exception inside one strategy is caught and treated as
"found nothing" (`continue`); no match at all returns `None`. -/
def extract_data_point (so : String → Except String (Option Element)) :
    List Strategy → Option (String → Json) → Json
  | [], _ => .null
  | s :: rest, cleaning =>
    match evalStrategy so cleaning s with
    | .error _ => extract_data_point so rest cleaning
    | .ok none => extract_data_point so rest cleaning
    | .ok (some v) => v

/-- `extract_list_data` (scraper.py lines 74-84): the first `'css_list'`
strategy whose query returns at least one element wins; exceptions are
caught and skip to the next strategy; no match returns `[]`. -/
def extract_list_data (sa : String → Except String (List Element)) :
    List Strategy → List Element
  | [] => []
  | s :: rest =>
    if s.type = "css_list" then
      match sa s.selector with
      | .error _ => extract_list_data sa rest
      | .ok elems => if !elems.isEmpty then elems else extract_list_data sa rest
    else extract_list_data sa rest

/-- C6: during presentation-fallback resolution, an exception raised while
evaluating one strategy is caught and treated as that strategy finding
nothing — resolution proceeds with the remaining strategies in order, for
both the scalar resolver and the list resolver. -/
theorem strategy_exception_skips :
    (∀ (so : String → Except String (Option Element))
       (cleaning : Option (String → Json)) (s : Strategy)
       (rest : List Strategy) (e : String),
       evalStrategy so cleaning s = .error e →
       extract_data_point so (s :: rest) cleaning =
         extract_data_point so rest cleaning) ∧
    (∀ (sa : String → Except String (List Element)) (s : Strategy)
       (rest : List Strategy) (e : String),
       sa s.selector = .error e →
       extract_list_data sa (s :: rest) = extract_list_data sa rest) := by
  constructor
  · intro so cleaning s rest e he
    show (match evalStrategy so cleaning s with
      | .error _ => extract_data_point so rest cleaning
      | .ok none => extract_data_point so rest cleaning
      | .ok (some v) => v) = extract_data_point so rest cleaning
    rw [he]
  · intro sa s rest e he
    show (if s.type = "css_list" then
        match sa s.selector with
        | .error _ => extract_list_data sa rest
        | .ok elems => if !elems.isEmpty then elems else extract_list_data sa rest
      else extract_list_data sa rest) = extract_list_data sa rest
    by_cases ht : s.type = "css_list"
    · rw [if_pos ht, he]
    · rw [if_neg ht]

theorem strategy_exception_skips_witness :
    evalStrategy (fun _ => .error "boom") none ⟨"css", "h1", none⟩ = .error "boom" ∧
    extract_data_point (fun _ => .error "boom") [⟨"css", "h1", none⟩] none = Json.null ∧
    extract_list_data (fun _ => .error "boom") [⟨"css_list", "div", none⟩] = [] := by
  refine ⟨rfl, ?_, ?_⟩
  · rw [strategy_exception_skips.1 (fun _ => .error "boom") none
      ⟨"css", "h1", none⟩ [] "boom" rfl]
    rfl
  · rw [strategy_exception_skips.2 (fun _ => .error "boom")
      ⟨"css_list", "div", none⟩ [] "boom" rfl]
    rfl

/-! ### Nutrition normalisation (scraper.py lines 87-92 and 243-273) -/

/-- Python `key.replace("Content", "")`: remove every non-overlapping
occurrence of `"Content"`, scanning left to right. -/
def stripContent : List Char → List Char
  | 'C' :: 'o' :: 'n' :: 't' :: 'e' :: 'n' :: 't' :: rest => stripContent rest
  | c :: cs => c :: stripContent cs
  | [] => []

/-- Python `pat in s` (substring containment). -/
def hasSubstr (pat : List Char) : List Char → Bool
  | [] => pat.isEmpty
  | c :: cs => pat.isPrefixOf (c :: cs) || hasSubstr pat cs

/-- The key normalisation of the nutrition loop (scraper.py lines
249-250): `clean_key = key.replace("Content", "").lower()`, overridden to
`"calories"` when `"calories" in key.lower()`. -/
def normalizeNutritionKey (key : String) : String :=
  if hasSubstr ("calories".data) (key.data.map Char.toLower) then "calories"
  else ⟨(stripContent key.data).map Char.toLower⟩

def isNumDot (c : Char) : Bool := c.isDigit || c = '.'

/-- The leftmost match of `re.search(r'([\d\.]+)', s)`: the first maximal
run of digits and dots. -/
def firstNumRun : List Char → Option (List Char)
  | [] => none
  | c :: cs =>
    if isNumDot c then some (c :: cs.takeWhile isNumDot) else firstNumRun cs

/-- Python `float` on a digit/dot run: defined when the run has at most
one dot and at least one digit (`float("..")` raises `ValueError`).
The magnitude is exact (`ℚ` models the float). -/
def pyFloatNumRun (l : List Char) : Option ℚ :=
  if l.count '.' ≤ 1 ∧ l.any Char.isDigit then
    some ((((l.takeWhile (· ≠ '.')).foldl digitStep 0 : ℕ) : ℚ) +
      ((((l.dropWhile (· ≠ '.')).drop 1).foldl digitStep 0 : ℕ) : ℚ) /
        (10 : ℚ) ^ ((l.dropWhile (· ≠ '.')).drop 1).length)
  else none

/-- `extract_nutrition_value` (scraper.py lines 87-92): lower-case the
stringified value, find the first `[\d\.]+` run, convert with `float`.
No run yields `None`; a malformed run (e.g. `".."`) raises an uncaught
`ValueError`. -/
def extract_nutrition_value (s : String) : Except Unit (Option ℚ) :=
  match firstNumRun (s.data.map Char.toLower) with
  | none => .ok none
  | some run =>
    match pyFloatNumRun run with
    | some q => .ok (some q)
    | none => .error ()

/-- The nutrition dict loop (scraper.py lines 246-254): normalise each
key, extract the numeric magnitude of `str(value)`, keep entries whose
value yielded a number.  Entries stay in iteration order; the raw keys of
a schema.org nutrition object are unique, so insertion-order pairs model
the dict. -/
def parseNutritionPairs : List (String × Json) → Except Unit (List (String × ℚ))
  | [] => .ok []
  | (k, v) :: rest =>
    match extract_nutrition_value (pyStr v) with
    | .error e => .error e
    | .ok none => parseNutritionPairs rest
    | .ok (some q) =>
      match parseNutritionPairs rest with
      | .error e => .error e
      | .ok tail => .ok ((normalizeNutritionKey k, q) :: tail)

/-- The nutrition portion of `scrape_recipe_data` (scraper.py lines
243-273).  `scraped_data["nutrition_info"]` is assigned only inside the
`isinstance(nutrition_json, dict)` branch; the subsequent fallback check
`if not scraped_data["nutrition_info"]:` reads the key with brackets, so
when the embedded value was not a dict the read raises `KeyError`.  The
CSS fallback block (lines 258-273) queries the soup and is abstracted as
the `cssNutrition` parameter — the mapping the fallback leaves in
`scraped_data` (the empty mapping when the parent selector finds
nothing). -/
def assemble_nutrition (nutritionJson : Json)
    (cssNutrition : List (String × ℚ)) : Except String (List (String × ℚ)) :=
  match nutritionJson with
  | .obj fields =>
    match parseNutritionPairs fields with
    | .error _ => .error "ValueError"
    | .ok parsed =>
      if parsed.isEmpty then .ok cssNutrition else .ok parsed
  | _ => .error "KeyError: nutrition_info"

/-! ### Claim C9: nutrition key canonicalisation -/

/-- Counterexample to C9 as stated: `key.replace("Content", "")` removes
*every* occurrence of `"Content"`, not only a trailing suffix.  For the
raw key `"ContentFat"` (no trailing `"Content"` suffix) the claim predicts
the canonical key `"contentfat"` (lower-casing only, text elsewhere
unaffected), but the code produces `"fat"`. -/
theorem nutrition_key_strips_inner_content :
    normalizeNutritionKey "ContentFat" = "fat" ∧
    ("fat" : String) ≠ "contentfat" := ⟨rfl, by decide⟩

theorem stripContent_cons_head_kept (c : Char) (cs : List Char)
    (h : ("Content".data).isPrefixOf (c :: cs) = false) :
    stripContent (c :: cs) = c :: stripContent cs := by
  rw [stripContent.eq_def]
  split
  · rename_i heq
    rw [show (c :: cs) = 'C' :: 'o' :: 'n' :: 't' :: 'e' :: 'n' :: 't' :: _ from heq] at h
    simp [List.isPrefixOf] at h
  · rename_i heq
    cases heq
    rfl
  · rename_i heq
    cases heq

theorem stripContent_of_no_occurrence (l : List Char)
    (h : hasSubstr ("Content".data) l = false) : stripContent l = l := by
  induction l with
  | nil => rfl
  | cons c cs ih =>
    rw [hasSubstr, Bool.or_eq_false_iff] at h
    rw [stripContent_cons_head_kept c cs h.1, ih h.2]

/-- C9 (amended): the canonical nutrition key is obtained by removing
every occurrence of the exact substring `"Content"` (anywhere in the key,
not only as a trailing suffix) and lower-casing the remainder; any key
containing `"calories"` case-insensitively maps to `"calories"`; and the
raw entry `"fatContent" : "15g"` yields canonical key `"fat"` with
magnitude `15.0`. -/
theorem nutrition_key_normalization :
    (∀ k : String,
      hasSubstr ("calories".data) (k.data.map Char.toLower) = true →
      normalizeNutritionKey k = "calories") ∧
    (∀ l : List Char, hasSubstr ("Content".data) l = false →
      stripContent l = l) ∧
    (∀ l : List Char, stripContent ("Content".data ++ l) = stripContent l) ∧
    parseNutritionPairs [("fatContent", Json.str "15g")] =
      .ok [("fat", (15 : ℚ))] := by
  refine ⟨?_, stripContent_of_no_occurrence, fun l => rfl, ?_⟩
  · intro k hk
    unfold normalizeNutritionKey
    rw [if_pos hk]
  · have hq : pyFloatNumRun ['1', '5'] = some 15 := by
      unfold pyFloatNumRun
      rw [if_pos (by decide),
        show (['1', '5'].takeWhile (· ≠ '.')) = ['1', '5'] from rfl,
        show ((['1', '5'].dropWhile (· ≠ '.')).drop 1) = [] from rfl,
        show (List.foldl digitStep 0 ['1', '5'] : ℕ) = 15 from rfl,
        show (List.foldl digitStep 0 ([] : List Char) : ℕ) = 0 from rfl]
      norm_num
    have hv : extract_nutrition_value "15g" = .ok (some (15 : ℚ)) := by
      show (match pyFloatNumRun ['1', '5'] with
            | some q => Except.ok (some q)
            | none => Except.error ()) = .ok (some (15 : ℚ))
      rw [hq]
    have hstep : parseNutritionPairs [("fatContent", Json.str "15g")] =
        (match extract_nutrition_value (pyStr (Json.str "15g")) with
         | .error e => .error e
         | .ok none => parseNutritionPairs []
         | .ok (some q) =>
           match parseNutritionPairs [] with
           | .error e => .error e
           | .ok tail => .ok ((normalizeNutritionKey "fatContent", q) :: tail)) := rfl
    rw [hstep, show pyStr (Json.str "15g") = "15g" from rfl, hv]
    rfl

theorem nutrition_key_normalization_witness :
    hasSubstr ("calories".data) ("caloriesFromFat".data.map Char.toLower) = true ∧
    normalizeNutritionKey "caloriesFromFat" = "calories" ∧
    hasSubstr ("Content".data) ("fat".data) = false ∧
    stripContent ("fat".data) = "fat".data := by
  refine ⟨rfl, ?_, rfl, ?_⟩
  · exact nutrition_key_normalization.1 "caloriesFromFat" rfl
  · exact nutrition_key_normalization.2.1 ("fat".data) rfl

/-! ### Claim C1: the nutrition fallback aborts on a missing entry -/

/-- C1 is a code bug: record assembly *does* abort because of nutrition.
When the embedded nutrition entry is missing (`get_value` returns `None`)
or is not a mapping, `scraped_data["nutrition_info"]` was never assigned
and the fallback check `if not scraped_data["nutrition_info"]:` raises
`KeyError` instead of attempting the presentation fallback; only a
mapping with zero usable keys reaches the fallback (third conjunct). -/
theorem nutrition_missing_entry_aborts :
    (∀ css : List (String × ℚ),
      assemble_nutrition Json.null css = .error "KeyError: nutrition_info") ∧
    (∀ css : List (String × ℚ),
      assemble_nutrition (Json.str "640 kcal") css =
        .error "KeyError: nutrition_info") ∧
    (∀ css : List (String × ℚ),
      assemble_nutrition (Json.obj [("fatContent", Json.str "n/a")]) css =
        .ok css) :=
  ⟨fun _ => rfl, fun _ => rfl, fun _ => rfl⟩

/-! ### Ingredient line parsing (`utils.parse_ingredient_strings_list`,
lines 100-199)

The big anchored regex of line 133 is an external `re` call; it is
abstracted as the `matcher` parameter producing the group dictionary
(`quantity`/`unit`/`name`).  Everything after the match — quantity
conversion, unit reclassification, allergen stripping, record assembly —
is embedded faithfully.  The claims settled here (C7, C8) hold for every
`matcher`, hence in particular for the real regex. -/

/-- The group dictionary of a successful `pattern.match`: `quantity` and
`name` are mandatory groups (always strings on a match), `unit` is
optional; `quantity` is kept `Option` to mirror `gd.get('quantity')`. -/
structure IngredientMatch where
  quantity : Option String
  unit : Option String
  name : String

/-- Python `c in s` for a single character. -/
def containsChar (l : List Char) (c : Char) : Bool := l.any (· = c)

/-- Python `int()` on the pieces the quantity converter feeds it.  Those
pieces are drawn from `[0-9./]` (split pieces never contain whitespace or
hyphens), for which `int` succeeds exactly on nonempty all-digit
strings. -/
def pyIntDigits (l : List Char) : Option Nat :=
  if !l.isEmpty && l.all Char.isDigit then some (l.foldl digitStep 0) else none

/-- Python `float()` on a quantity token.  Tokens reaching the decimal
branch are drawn from digits, dots and letter words, for which `float`
succeeds exactly on digit/dot strings with at most one dot and at least
one digit (handled by `pyFloatNumRun`). -/
def pyFloatToken (l : List Char) : Option ℚ :=
  if l.all isNumDot then pyFloatNumRun l else none

/-- Association lookup for the word map (a Python dict with unique
keys). -/
def lookupWord (s : String) : List (String × ℚ) → Option ℚ
  | [] => none
  | (k, v) :: rest => if k = s then some v else lookupWord s rest

/-- The `qty_word_map` dict of utils.py line 164. -/
def qtyWordMap : List (String × ℚ) :=
  [("a", 1), ("an", 1), ("one", 1), ("two", 2), ("three", 3), ("four", 4),
   ("five", 5), ("six", 6), ("seven", 7), ("eight", 8), ("nine", 9),
   ("ten", 10)]

/-- `qty_word_map[quantity_str.lower()]` when present. -/
def qtyWordValue (s : String) : Option ℚ :=
  lookupWord s qtyWordMap

/-- A parsed quantity: numeric when conversion succeeded, the original
token string when it failed (utils.py line 181). -/
inductive Quantity where
  | num : ℚ → Quantity
  | str : String → Quantity
deriving DecidableEq

/-- The quantity conversion of utils.py lines 163-181 for a truthy
token: the word map first; then fractions (`a/b`), mixed numbers
(`w a/b` with a space or hyphen), or `float`; `ValueError` is caught and
retains the token, but a zero denominator raises an uncaught
`ZeroDivisionError` (`.error ()`).  The unreachable `parts[1]` access on a
split without two pieces would raise `IndexError`, also `.error ()`. -/
def convert_quantity (qs : String) : Except Unit Quantity :=
  match qtyWordValue ⟨qs.data.map Char.toLower⟩ with
  | some v => .ok (.num v)
  | none =>
    if containsChar qs.data '/' then
      if containsChar qs.data '-' || containsChar qs.data ' ' then
        match splitOnPred (fun c => c.isWhitespace || c = '-') qs.data with
        | p0 :: p1 :: _ =>
          match pyIntDigits p0 with
          | none => .ok (.str qs)
          | some whole =>
            match splitOnPred (· = '/') p1 with
            | [a, b] =>
              match pyIntDigits a, pyIntDigits b with
              | some n, some d =>
                if d = 0 then .error ()
                else .ok (.num ((whole : ℚ) + (n : ℚ) / (d : ℚ)))
              | _, _ => .ok (.str qs)
            | _ => .ok (.str qs)
        | _ => .error ()
      else
        match splitOnPred (· = '/') qs.data with
        | [a, b] =>
          match pyIntDigits a, pyIntDigits b with
          | some n, some d =>
            if d = 0 then .error () else .ok (.num ((n : ℚ) / (d : ℚ)))
          | _, _ => .ok (.str qs)
        | _ => .ok (.str qs)
    else
      match pyFloatToken qs.data with
      | some q => .ok (.num q)
      | none => .ok (.str qs)

/-- Lines 163-183 including the truthiness guard: a `None` or empty
token yields `None`. -/
def quantityOfToken : Option String → Except Unit (Option Quantity)
  | none => .ok none
  | some qs =>
    if qs.data.isEmpty then .ok none
    else
      match convert_quantity qs with
      | .error e => .error e
      | .ok q => .ok (some q)

/-- Python `str.rstrip(',')`. -/
def pyRStripComma (s : String) : String :=
  ⟨(s.data.reverse.dropWhile (· = ',')).reverse⟩

/-- `name_str.split(' ')[0]` (split on single spaces, first piece). -/
def firstWordSpace (s : String) : List Char :=
  (splitOnPred (· = ' ') s.data).headD []

/-- `name_str.split(' ', 1)`: the first piece and, when a space exists,
the remainder after the first space (kept verbatim). -/
def splitOnceSpace (s : String) : List Char × Option (List Char) :=
  match s.data.dropWhile (· ≠ ' ') with
  | [] => (s.data, none)
  | _ :: post => (s.data.takeWhile (· ≠ ' '), some post)

/-- The `common_units_check` list of utils.py line 152. -/
def commonUnitsCheck : List String :=
  ["thumb", "clove", "unit", "lime", "scallions", "garlic", "ginger"]

/-- Truthiness of the captured quantity group. -/
def qtyTruthy : Option String → Bool
  | none => false
  | some s => !s.data.isEmpty

/-- The unit reclassification of utils.py lines 146-158: when no unit was
captured and a quantity was, and the first word of the name contains no
digit, the groups pass through; otherwise (first word has a digit) the
first word is compared against `common_units_check` and possibly
reclassified as the unit.  (No word both contains a digit and appears in
`common_units_check`, so the reclassification arm never fires on real
matches; it is embedded as written.) -/
def reclassifyUnit (quantity_str unit_str : Option String) (name0 : String) :
    Option String × String :=
  if unit_str = none ∧ qtyTruthy quantity_str = true ∧
      !(firstWordSpace name0).any Char.isDigit then
    (unit_str, name0)
  else if unit_str = none ∧ qtyTruthy quantity_str = true then
    match splitOnceSpace name0 with
    | (w, some restName) =>
      if commonUnitsCheck.contains ⟨w.map Char.toLower⟩ then (some ⟨w⟩, ⟨restName⟩)
      else (unit_str, name0)
    | (w, none) =>
      if commonUnitsCheck.contains ⟨w.map Char.toLower⟩ then (some ⟨w⟩, "")
      else (unit_str, name0)
  else (unit_str, name0)

/-! #### Allergen disclosures (`utils.extract_allergens_from_text`,
lines 78-97, and the name cleanup of lines 186-187) -/

/-- Case-insensitive literal strip: when the lower-cased head of `l`
equals `pat` (given lower-case), return the remainder. -/
def ciStrip (pat : List Char) (l : List Char) : Option (List Char) :=
  if (l.take pat.length).map Char.toLower = pat then some (l.drop pat.length)
  else none

/-- The `(?:Contains|Allergens|Allergen Information):` alternation (tried
in declared order, case-insensitive, each followed by the literal
colon). -/
def stripDisclosureHeader (l : List Char) : Option (List Char) :=
  match ciStrip ("contains:".data) l with
  | some r => some r
  | none =>
    match ciStrip ("allergens:".data) l with
    | some r => some r
    | none => ciStrip ("allergen information:".data) l

/-- The leftmost match of
`re.search(r'\((?:Contains|...):\s*([^)]+)\)', text)` (utils.py line 88):
scan for a `(` followed by a header and colon, take everything up to the
next `)`; at least one such character and the closing `)` are required.
The captured group is returned including the `\s*` padding — every
consumer strips each token, so the padding is immaterial. -/
def findAllergenBlock : List Char → Option (List Char)
  | [] => none
  | c :: cs =>
    if c = '(' then
      match stripDisclosureHeader cs with
      | some afterColon =>
        if !(afterColon.takeWhile (· ≠ ')')).isEmpty &&
            !(afterColon.dropWhile (· ≠ ')')).isEmpty then
          some (afterColon.takeWhile (· ≠ ')'))
        else findAllergenBlock cs
      | none => findAllergenBlock cs
    else findAllergenBlock cs

/-- `re.split(r',\s*|\s+and\s+', allergen_string)` (utils.py line 92):
scan left to right; a comma eats trailing whitespace; a whitespace run
followed by `and` followed by at least one whitespace is a delimiter;
anything else joins the current token.  `fuel` bounds the recursion (one
unit per examined character; callers pass the list length). -/
def splitAllergenAux : Nat → List Char → List Char → List (List Char)
  | _, acc, [] => [acc.reverse]
  | 0, acc, rest => [acc.reverse ++ rest]
  | fuel + 1, acc, c :: cs =>
    if c = ',' then
      acc.reverse :: splitAllergenAux fuel [] (cs.dropWhile Char.isWhitespace)
    else if c.isWhitespace then
      if ("and".data).isPrefixOf (cs.dropWhile Char.isWhitespace) then
        match (cs.dropWhile Char.isWhitespace).drop 3 with
        | d :: ds =>
          if d.isWhitespace then
            acc.reverse :: splitAllergenAux fuel [] (ds.dropWhile Char.isWhitespace)
          else splitAllergenAux fuel (c :: acc) cs
        | [] => splitAllergenAux fuel (c :: acc) cs
      else splitAllergenAux fuel (c :: acc) cs
    else splitAllergenAux fuel (c :: acc) cs

def splitAllergenList (l : List Char) : List (List Char) :=
  splitAllergenAux l.length [] l

/-- Python `str.strip()` on char lists. -/
def stripWsList (l : List Char) : List Char :=
  ((l.dropWhile Char.isWhitespace).reverse.dropWhile Char.isWhitespace).reverse

/-- `allergen.strip().rstrip('.').lower().capitalize()` (utils.py line
94). -/
def normalizeAllergen (l : List Char) : List Char :=
  match ((stripWsList l).reverse.dropWhile (· = '.')).reverse.map Char.toLower with
  | [] => []
  | c :: cs => c.toUpper :: cs

/-- Python set insertion, modelled as first-occurrence order (the set's
iteration order is unspecified in Python; no claim depends on it). -/
def dedupeInsert (acc : List String) (x : String) : List String :=
  if acc.contains x then acc else acc ++ [x]

/-- `extract_allergens_from_text` (utils.py lines 78-97): find the
disclosure, split the list, normalise each token, drop empties, dedupe. -/
def extract_allergens_from_text (s : String) : List String :=
  match findAllergenBlock s.data with
  | none => []
  | some content =>
    (splitAllergenList content).foldl
      (fun acc t =>
        let cleaned := normalizeAllergen t
        if cleaned.isEmpty then acc else dedupeInsert acc ⟨cleaned⟩) []

/-- One attempted match of the `re.sub` pattern
`\s*\((?:Contains|...):\s*[^)]+\)` (utils.py line 187) anchored at the
current position: optional whitespace, `(`, header, colon, at least one
non-`)` character, `)`.  Returns the remainder after the match. -/
def tryAllergenParen (l : List Char) : Option (List Char) :=
  match l.dropWhile Char.isWhitespace with
  | '(' :: inner =>
    match stripDisclosureHeader inner with
    | some afterColon =>
      if !(afterColon.takeWhile (· ≠ ')')).isEmpty then
        match afterColon.dropWhile (· ≠ ')') with
        | _ :: rest => some rest
        | [] => none
      else none
    | none => none
  | _ => none

/-- `re.sub(pattern, '', name_str)`: remove every leftmost match,
continuing after each removal. -/
def stripAllergenSubAux : Nat → List Char → List Char
  | _, [] => []
  | 0, l => l
  | fuel + 1, c :: cs =>
    match tryAllergenParen (c :: cs) with
    | some rest => stripAllergenSubAux fuel rest
    | none => c :: stripAllergenSubAux fuel cs

def stripAllergenSub (s : String) : String :=
  ⟨stripAllergenSubAux s.data.length s.data⟩

/-! #### The per-line parser and the list aggregator -/

/-- One `Ingredient` record as the dict of utils.py lines 190-196. -/
structure Ingredient where
  name : Option String
  quantity : Option Quantity
  unit : Option String
  full_text : String
  allergens_in_item : List String
deriving DecidableEq

/-- One iteration of the `parse_ingredient_strings_list` loop (utils.py
lines 112-197) on a string item, generic over the regex `matcher`:
clean the line (a line cleaning to empty is skipped, `.ok none`); extract
allergens from the *raw* text; run the match and post-process the groups;
convert the quantity (an uncaught `ZeroDivisionError` aborts the whole
call, `.error`); strip the disclosure from the name; emit the record.
The audit field `full_text` holds the *cleaned* line. -/
def parse_ingredient_line (matcher : String → Option IngredientMatch)
    (raw : String) : Except Unit (Option Ingredient) :=
  if (pyCleanTextStr raw).data.isEmpty then .ok none
  else
    match
      (match matcher (pyCleanTextStr raw) with
       | none => ((none : Option String), (none : Option String), pyCleanTextStr raw)
       | some g =>
         let name0 := pyRStripComma (pyStripWs g.name)
         let un := reclassifyUnit g.quantity g.unit name0
         (g.quantity, un.1, un.2))
    with
    | (quantity_str, unit_str, name_str) =>
      match quantityOfToken quantity_str with
      | .error e => .error e
      | .ok qty =>
        .ok (some {
          name :=
            if !(if !name_str.data.isEmpty ∧
                    !(extract_allergens_from_text raw).isEmpty then
                  pyStripWs (stripAllergenSub name_str) else name_str).data.isEmpty
            then some (pyCleanTextStr
              (if !name_str.data.isEmpty ∧
                  !(extract_allergens_from_text raw).isEmpty then
                pyStripWs (stripAllergenSub name_str) else name_str))
            else none
          quantity := qty
          unit :=
            match unit_str with
            | some u => if !u.data.isEmpty then some (pyCleanTextStr u) else none
            | none => none
          full_text := pyCleanTextStr raw
          allergens_in_item := extract_allergens_from_text raw })

/-- Fold two allergen lists keeping first-occurrence order
(`overall_allergens.update(item_allergens)`). -/
def dedupeAppend (acc : List String) (xs : List String) : List String :=
  xs.foldl dedupeInsert acc

/-- `parse_ingredient_strings_list` (utils.py lines 100-199) on string
items: parse each line in order, skip lines that clean to empty,
aggregate the per-line allergens into one deduplicated collection; an
exception on any line aborts the whole call. -/
def parse_ingredient_strings_list (matcher : String → Option IngredientMatch) :
    List String → Except Unit (List Ingredient × List String)
  | [] => .ok ([], [])
  | raw :: rest =>
    match parse_ingredient_line matcher raw with
    | .error e => .error e
    | .ok none => parse_ingredient_strings_list matcher rest
    | .ok (some ing) =>
      match parse_ingredient_strings_list matcher rest with
      | .error e => .error e
      | .ok (ings, alls) =>
        .ok (ing :: ings, dedupeAppend ing.allergens_in_item alls)

/-! ### Claim C7: the audit field -/

/-- Counterexample to C7 as stated: the `full_text` audit field stores the
*cleaned* line (`full_text = cleaning_func(full_text_raw)`, utils.py lines
120 and 194), not the untouched original: a line with doubled spaces is
emitted with the collapsed text. -/
theorem ingredient_audit_not_raw :
    parse_ingredient_line (fun _ => none) "Salt  Pepper" =
      .ok (some { name := some "Salt Pepper", quantity := none, unit := none,
                  full_text := "Salt Pepper", allergens_in_item := [] }) ∧
    ("Salt Pepper" : String) ≠ "Salt  Pepper" := ⟨rfl, by decide⟩

/-- C7 (amended): for every ingredient line, regardless of match outcome
(any `matcher`), the emitted `Ingredient` carries the *normalized*
(cleaned) line text as its audit field; lines that clean to the empty
string emit nothing.  The second conjunct ties the list aggregator to the
per-line parser: every emitted ingredient comes from some input line. -/
theorem ingredient_audit_field_cleaned :
    (∀ (matcher : String → Option IngredientMatch) (raw : String)
       (ing : Ingredient),
       parse_ingredient_line matcher raw = .ok (some ing) →
       ing.full_text = pyCleanTextStr raw) ∧
    (∀ (matcher : String → Option IngredientMatch) (lines : List String)
       (p : List Ingredient × List String) (ing : Ingredient),
       parse_ingredient_strings_list matcher lines = .ok p → ing ∈ p.1 →
       ∃ raw, raw ∈ lines ∧
         parse_ingredient_line matcher raw = .ok (some ing)) := by
  constructor
  · intro matcher raw ing h
    unfold parse_ingredient_line at h
    split at h
    · simp at h
    · split at h
      · split at h
        · exact absurd h (by simp)
        · simp only [Except.ok.injEq, Option.some.injEq] at h
          subst h
          rfl
  · intro matcher lines
    induction lines with
    | nil =>
      intro p ing hp hm
      simp only [parse_ingredient_strings_list, Except.ok.injEq] at hp
      subst hp
      simp at hm
    | cons raw rest ih =>
      intro p ing hp hm
      unfold parse_ingredient_strings_list at hp
      split at hp
      · exact absurd hp (by simp)
      · obtain ⟨r, hr, hpr⟩ := ih p ing hp hm
        exact ⟨r, List.mem_cons_of_mem _ hr, hpr⟩
      · rename_i ing' hline
        split at hp
        · exact absurd hp (by simp)
        · rename_i ings alls hrest
          simp only [Except.ok.injEq] at hp
          subst hp
          rcases List.mem_cons.mp hm with rfl | hmem
          · exact ⟨raw, List.mem_cons_self _ _, hline⟩
          · obtain ⟨r, hr, hpr⟩ := ih (ings, alls) ing hrest hmem
            exact ⟨r, List.mem_cons_of_mem _ hr, hpr⟩

theorem ingredient_audit_field_cleaned_witness :
    parse_ingredient_line (fun _ => none) "Fresh  Basil" =
      .ok (some { name := some "Fresh Basil", quantity := none, unit := none,
                  full_text := "Fresh Basil", allergens_in_item := [] }) ∧
    ("Fresh Basil" : String) = pyCleanTextStr "Fresh  Basil" := by
  refine ⟨rfl, ?_⟩
  exact ingredient_audit_field_cleaned.1 (fun _ => none) "Fresh  Basil"
    { name := some "Fresh Basil", quantity := none, unit := none,
      full_text := "Fresh Basil", allergens_in_item := [] } rfl

/-! ### Claim C8: quantity-token conversion -/

theorem natDigitsRev_shape (n : Nat) :
    ∀ c ∈ natDigitsRev n, ∃ r, c = digitChar r := by
  induction n using Nat.strong_induction_on with
  | _ n ih =>
    match n with
    | 0 => intro c hc; simp [natDigitsRev] at hc
    | k + 1 =>
      intro c hc
      rw [natDigitsRev] at hc
      rcases List.mem_cons.mp hc with h | h
      · exact ⟨(k + 1) % 10, h⟩
      · exact ih ((k + 1) / 10) (Nat.div_lt_self (Nat.succ_pos k) (by decide)) c h

theorem natDigits_shape (n : Nat) :
    ∀ c ∈ natDigits n, ∃ r, c = digitChar r := by
  intro c hc
  unfold natDigits at hc
  split at hc
  · simp at hc; exact ⟨0, hc⟩
  · exact natDigitsRev_shape n c (List.mem_reverse.mp hc)

theorem digitChar_ne_slash (r : Nat) : digitChar r ≠ '/' := by
  unfold digitChar; split <;> decide

theorem digitChar_ne_dash (r : Nat) : digitChar r ≠ '-' := by
  unfold digitChar; split <;> decide

theorem digitChar_ne_space (r : Nat) : digitChar r ≠ ' ' := by
  unfold digitChar; split <;> decide

theorem lookupWord_some_mem (s : String) (m : List (String × ℚ)) (v : ℚ)
    (h : lookupWord s m = some v) : s ∈ m.map Prod.fst := by
  induction m with
  | nil => simp [lookupWord] at h
  | cons kv rest ih =>
    obtain ⟨k, w⟩ := kv
    unfold lookupWord at h
    split at h
    · rename_i hk
      subst hk
      simp
    · simpa using Or.inr (by simpa using ih h)

theorem qtyWordValue_none_of_slash (s : String) (h : '/' ∈ s.data) :
    qtyWordValue s = none := by
  rcases hq : qtyWordValue s with _ | v
  · rfl
  · exfalso
    have hmem := lookupWord_some_mem s qtyWordMap v hq
    simp only [qtyWordMap, List.map_cons, List.map_nil, List.mem_cons,
      List.not_mem_nil, or_false] at hmem
    rcases hmem with
      rfl | rfl | rfl | rfl | rfl | rfl | rfl | rfl | rfl | rfl | rfl | rfl <;>
      revert h <;> decide

theorem qtyWordValue_mapLower_none_of_slash (l : List Char) (h : '/' ∈ l) :
    qtyWordValue ⟨l.map Char.toLower⟩ = none := by
  apply qtyWordValue_none_of_slash
  show '/' ∈ l.map Char.toLower
  have := List.mem_map_of_mem Char.toLower h
  simpa using this

theorem splitOnPred_ne_nil (p : Char → Bool) (l : List Char) :
    splitOnPred p l ≠ [] := by
  cases l with
  | nil => simp [splitOnPred]
  | cons c cs =>
    unfold splitOnPred
    split <;> split <;> simp

theorem splitOnPred_delim_append (p : Char → Bool) (l1 : List Char)
    (d : Char) (l2 : List Char) (hd : p d = true)
    (h1 : ∀ c ∈ l1, p c = false) :
    splitOnPred p (l1 ++ d :: l2) = l1 :: splitOnPred p l2 := by
  induction l1 with
  | nil =>
    rw [List.nil_append]
    show (match splitOnPred p l2 with
      | [] => if p d then [[], []] else [[d]]
      | t :: ts => if p d then [] :: t :: ts else (d :: t) :: ts) =
      [] :: splitOnPred p l2
    rcases hsplit : splitOnPred p l2 with _ | ⟨t, ts⟩
    · exact absurd hsplit (splitOnPred_ne_nil p l2)
    · simp [hd]
  | cons c l1 ih =>
    have hc : p c = false := h1 c (List.mem_cons_self _ _)
    rw [List.cons_append]
    show (match splitOnPred p (l1 ++ d :: l2) with
      | [] => if p c then [[], []] else [[c]]
      | t :: ts => if p c then [] :: t :: ts else (c :: t) :: ts) =
      (c :: l1) :: splitOnPred p l2
    rw [ih (fun x hx => h1 x (List.mem_cons_of_mem _ hx))]
    simp [hc]

theorem pyIntDigits_natDigits (n : Nat) : pyIntDigits (natDigits n) = some n := by
  unfold pyIntDigits
  have h1 : (natDigits n).isEmpty = false := by
    rcases hne : natDigits n with _ | ⟨c, cs⟩
    · exact absurd hne (natDigits_ne_nil n)
    · rfl
  have h2 : (natDigits n).all Char.isDigit = true :=
    List.all_eq_true.mpr (natDigits_isDigit n)
  rw [h1, h2, natDigits_foldl]
  rfl

theorem containsChar_natDigits_false (n : Nat) (c : Char)
    (hc : ∀ r, digitChar r ≠ c) : containsChar (natDigits n) c = false := by
  unfold containsChar
  rw [List.any_eq_false]
  intro x hx
  obtain ⟨r, rfl⟩ := natDigits_shape n x hx
  simp [hc r]

/-- Counterexample to C8 as stated: conversion *can* raise.  The quantity
pattern admits the token `"1/0"` (e.g. from the line `"1/0 cup sugar"`);
the fraction branch catches only `ValueError`, so `num/den` with a zero
denominator raises an uncaught `ZeroDivisionError` instead of retaining
the token. -/
theorem quantity_zero_denominator_raises :
    convert_quantity "1/0" = .error () := rfl

/-- C8 (amended): for every matched quantity token, spelled-out numbers
map through the fixed word table; a simple fraction `a/b` becomes `a/b`;
a mixed number `w a/b` (space or hyphen separated) becomes `w + a/b`;
otherwise the token is parsed as a decimal, and when that conversion
fails the original token string is retained — conversion never raises for
slash-free tokens, but a fraction whose denominator is zero raises an
uncaught division error (see the counterexample). -/
theorem quantity_token_conversion :
    (∀ (qs : String) (v : ℚ),
      qtyWordValue ⟨qs.data.map Char.toLower⟩ = some v →
      convert_quantity qs = .ok (.num v)) ∧
    (∀ a b : Nat, b ≠ 0 →
      convert_quantity ⟨natDigits a ++ '/' :: natDigits b⟩ =
        .ok (.num ((a : ℚ) / (b : ℚ)))) ∧
    (∀ (w a b : Nat) (sep : Char), sep = ' ' ∨ sep = '-' → b ≠ 0 →
      convert_quantity ⟨natDigits w ++ sep :: (natDigits a ++ '/' :: natDigits b)⟩ =
        .ok (.num ((w : ℚ) + (a : ℚ) / (b : ℚ)))) ∧
    (∀ (qs : String) (q : ℚ),
      qtyWordValue ⟨qs.data.map Char.toLower⟩ = none →
      containsChar qs.data '/' = false →
      pyFloatToken qs.data = some q →
      convert_quantity qs = .ok (.num q)) ∧
    (∀ qs : String,
      qtyWordValue ⟨qs.data.map Char.toLower⟩ = none →
      containsChar qs.data '/' = false →
      pyFloatToken qs.data = none →
      convert_quantity qs = .ok (.str qs)) ∧
    (∀ qs : String, containsChar qs.data '/' = false →
      ∃ r, convert_quantity qs = .ok r) := by
  have hslashDigits : ∀ n : Nat, containsChar (natDigits n) '/' = false :=
    fun n => containsChar_natDigits_false n '/' digitChar_ne_slash
  have hnoslash : ∀ n : Nat, ∀ c ∈ natDigits n, (c = '/') = False := by
    intro n c hc
    obtain ⟨r, rfl⟩ := natDigits_shape n c hc
    simp [digitChar_ne_slash r]
  refine ⟨?_, ?_, ?_, ?_, ?_, ?_⟩
  · intro qs v h
    unfold convert_quantity
    rw [h]
  · intro a b hb
    unfold convert_quantity
    rw [qtyWordValue_mapLower_none_of_slash _ (by simp)]
    have hcs : containsChar (natDigits a ++ '/' :: natDigits b) '/' = true := by
      simp [containsChar]
    have hcd : containsChar (natDigits a ++ '/' :: natDigits b) '-' = false := by
      unfold containsChar
      rw [List.any_eq_false]
      intro x hx
      rcases List.mem_append.mp hx with h | h
      · obtain ⟨r, rfl⟩ := natDigits_shape a x h
        simp [digitChar_ne_dash r]
      · rcases List.mem_cons.mp h with rfl | h
        · simp
        · obtain ⟨r, rfl⟩ := natDigits_shape b x h
          simp [digitChar_ne_dash r]
    have hcsp : containsChar (natDigits a ++ '/' :: natDigits b) ' ' = false := by
      unfold containsChar
      rw [List.any_eq_false]
      intro x hx
      rcases List.mem_append.mp hx with h | h
      · obtain ⟨r, rfl⟩ := natDigits_shape a x h
        simp [digitChar_ne_space r]
      · rcases List.mem_cons.mp h with rfl | h
        · simp
        · obtain ⟨r, rfl⟩ := natDigits_shape b x h
          simp [digitChar_ne_space r]
    rw [show (String.mk (natDigits a ++ '/' :: natDigits b)).data =
      natDigits a ++ '/' :: natDigits b from rfl]
    rw [hcs, hcd, hcsp]
    simp only [Bool.false_or, if_true, Bool.false_eq_true, if_false]
    rw [splitOnPred_delim_append _ _ _ _ (by decide)
      (fun c hc => by simpa using hnoslash a c hc)]
    rw [splitOnPred_of_none _ _ (fun c hc => by simpa using hnoslash b c hc)]
    simp only [pyIntDigits_natDigits]
    rw [if_neg hb]
  · intro w a b sep hsep hb
    unfold convert_quantity
    have hmemsep : sep ∈ natDigits w ++ sep :: (natDigits a ++ '/' :: natDigits b) := by
      simp
    rw [qtyWordValue_mapLower_none_of_slash _ (by simp)]
    have hcs : containsChar (natDigits w ++ sep :: (natDigits a ++ '/' :: natDigits b)) '/'
        = true := by simp [containsChar]
    have hdashsp :
        containsChar (natDigits w ++ sep :: (natDigits a ++ '/' :: natDigits b)) '-' = true ∨
        containsChar (natDigits w ++ sep :: (natDigits a ++ '/' :: natDigits b)) ' ' = true := by
      rcases hsep with rfl | rfl
      · right; unfold containsChar; rw [List.any_eq_true]; exact ⟨' ', hmemsep, by simp⟩
      · left; unfold containsChar; rw [List.any_eq_true]; exact ⟨'-', hmemsep, by simp⟩
    rw [show (String.mk (natDigits w ++ sep :: (natDigits a ++ '/' :: natDigits b))).data =
      natDigits w ++ sep :: (natDigits a ++ '/' :: natDigits b) from rfl]
    rw [hcs]
    have horcond :
        (containsChar (natDigits w ++ sep :: (natDigits a ++ '/' :: natDigits b)) '-' ||
         containsChar (natDigits w ++ sep :: (natDigits a ++ '/' :: natDigits b)) ' ') = true := by
      rcases hdashsp with h | h <;> simp [h]
    rw [if_pos rfl, if_pos horcond]
    have hsepp : (fun c => c.isWhitespace || c = '-') sep = true := by
      rcases hsep with rfl | rfl <;> decide
    have hdigfalse : ∀ n : Nat, ∀ c ∈ natDigits n,
        (fun c => c.isWhitespace || c = '-') c = false := by
      intro n c hc
      obtain ⟨r, rfl⟩ := natDigits_shape n c hc
      have h1 := digitChar_not_ws r
      have h2 := digitChar_ne_dash r
      simp [h1, h2]
    rw [splitOnPred_delim_append _ _ _ _ hsepp (hdigfalse w)]
    rw [splitOnPred_of_none _ _ (by
      intro c hc
      rcases List.mem_append.mp hc with h | h
      · exact hdigfalse a c h
      · rcases List.mem_cons.mp h with rfl | h
        · decide
        · exact hdigfalse b c h)]
    simp only [pyIntDigits_natDigits]
    rw [splitOnPred_delim_append _ _ _ _ (by decide)
      (fun c hc => by simpa using hnoslash a c hc)]
    rw [splitOnPred_of_none _ _ (fun c hc => by simpa using hnoslash b c hc)]
    simp only [pyIntDigits_natDigits]
    rw [if_neg hb]
  · intro qs q h1 h2 h3
    unfold convert_quantity
    rw [h1, h2]
    simp only [Bool.false_eq_true, if_false]
    rw [h3]
  · intro qs h1 h2 h3
    unfold convert_quantity
    rw [h1, h2]
    simp only [Bool.false_eq_true, if_false]
    rw [h3]
  · intro qs h2
    unfold convert_quantity
    rcases hw : qtyWordValue ⟨qs.data.map Char.toLower⟩ with _ | v
    · rw [h2]
      simp only [Bool.false_eq_true, if_false]
      rcases hf : pyFloatToken qs.data with _ | q
      · exact ⟨.str qs, rfl⟩
      · exact ⟨.num q, rfl⟩
    · exact ⟨.num v, rfl⟩

theorem quantity_token_conversion_witness :
    (2 : Nat) ≠ 0 ∧
    convert_quantity ⟨natDigits 1 ++ '/' :: natDigits 2⟩ =
      .ok (.num (((1 : Nat) : ℚ) / ((2 : Nat) : ℚ))) :=
  ⟨by decide, quantity_token_conversion.2.1 1 2 (by decide)⟩

end HelloFresh
